import Mathlib

/-!
Formal model of the AddressFilter repository (two Go command-line
utilities: `Get_Address.go`, called "program A" below, and
`execute_Address.go`, called "program B").

The Go code is embedded shallowly:

* Go strings are Lean `String`s; the byte-level operations that the
  code performs on them (`strings.Split`, `strings.Contains`,
  `fmt.Sscanf` with `%f`) are modelled as executable functions on
  `List Char` (`splitSub`, `containsSub`, `parseFloat`).
* Go `float64` values that the programs parse out of decimal text and
  compare against decimal literals are modelled as exact rationals
  (`ℚ`).  Every number the programs handle is obtained from decimal
  notation, and the conversion of decimal notation to `float64` is
  monotone and injective on the values compared here, so the order
  comparisons of the model agree with the Go comparisons.
* Network access, the headless-browser session and logging are outside
  the model: the outcome of each external call is an explicit input
  (an `Except`/`Option` value) of the function that consumes it.
* A Go runtime panic (slice index out of range) is modelled as the
  `.error` branch of an `Except GoPanic` result.
-/

/-! ## String machinery (models of Go `strings` operations) -/

/-- Decides whether `sep` is a prefix of `s` (`List Char` version,
used by the models of `strings.Split` and `strings.Contains`). -/
def leadsWith : List Char → List Char → Bool
  | [], _ => true
  | _ :: _, [] => false
  | a :: as, b :: bs => a == b && leadsWith as bs

/-- Worker for `splitSub`.  The fuel argument dominates the number of
steps (each step consumes at least one character when `sep` is
non-empty); `splitSub` passes the length of the string. -/
def splitSubAux (sep : List Char) : Nat → List Char → List Char → List (List Char)
  | _, [], acc => [acc.reverse]
  | 0, rest, acc => [acc.reverse ++ rest]
  | fuel + 1, c :: rest, acc =>
    if leadsWith sep (c :: rest) then
      acc.reverse :: splitSubAux sep fuel ((c :: rest).drop sep.length) []
    else
      splitSubAux sep fuel rest (c :: acc)

/-- Model of Go `strings.Split(s, sep)` for a non-empty separator:
the substrings between consecutive non-overlapping occurrences of
`sep`. -/
def splitSub (s sep : List Char) : List (List Char) :=
  splitSubAux sep s.length s []

/-- Model of Go `strings.Contains(s, sub)` for a non-empty `sub`:
some suffix of `s` starts with `sub`. -/
def containsSub : List Char → List Char → Bool
  | [], sub => leadsWith sub []
  | c :: rest, sub => leadsWith sub (c :: rest) || containsSub rest sub

/-! ## Number parsing (model of `fmt.Sscanf(s, "%f", &x)`) -/

/-- The natural number denoted by a list of decimal digit characters
(most significant first). -/
def natOfDigits (ds : List Char) : Nat :=
  ds.foldl (fun n c => 10 * n + (c.toNat - 48)) 0

/-- Model of scanning a leading `float64` from a string, as
`fmt.Sscanf(s, "%f", &x)` does in Go: optional leading spaces, an
optional sign, decimal digits with an optional fractional part, and an
optional decimal exponent; at least one digit of mantissa is required,
and an exponent marker must be followed by at least one digit.
Returns `none` when scanning fails (in which case the Go call reports
an error).  Hexadecimal floats, `inf` and `NaN` — none of which occur
in the data this program scans — are not modelled.  The value is
assembled with integer arithmetic and a single `mkRat`, so that it is
exact. -/
def parseFloat (s : List Char) : Option ℚ :=
  let s1 := s.dropWhile (fun c => c == ' ' || c == '\t' || c == '\n' || c == '\r')
  let signAndRest : Bool × List Char :=
    match s1 with
    | '-' :: t => (true, t)
    | '+' :: t => (false, t)
    | _ => (false, s1)
  let neg := signAndRest.1
  let s2 := signAndRest.2
  let ip := s2.takeWhile Char.isDigit
  let s3 := s2.dropWhile Char.isDigit
  let fpAndRest : List Char × List Char :=
    match s3 with
    | '.' :: t => (t.takeWhile Char.isDigit, t.dropWhile Char.isDigit)
    | _ => ([], s3)
  let fp := fpAndRest.1
  let s4 := fpAndRest.2
  if ip.isEmpty && fp.isEmpty then none
  else
    let mag : Int := Int.ofNat (natOfDigits ip * 10 ^ fp.length + natOfDigits fp)
    let mantissa : Int := if neg then -mag else mag
    match s4 with
    | 'e' :: t | 'E' :: t =>
      let esignAndRest : Bool × List Char :=
        match t with
        | '-' :: u => (true, u)
        | '+' :: u => (false, u)
        | _ => (false, t)
      let eds := esignAndRest.2.takeWhile Char.isDigit
      if eds.isEmpty then none
      else if esignAndRest.1 then
        some (mkRat mantissa (10 ^ (fp.length + natOfDigits eds)))
      else
        some (mkRat (mantissa * 10 ^ natOfDigits eds) (10 ^ fp.length))
    | _ => some (mkRat mantissa (10 ^ fp.length))

/-! ## Shared model of a Go runtime panic -/

/-- A Go runtime panic that the modelled code can raise: indexing a
slice out of its bounds.  A panic aborts the whole program, so in the
model it is the `.error` branch of an `Except` that propagates through
every enclosing loop. -/
inductive GoPanic where
  | indexOutOfRange
deriving DecidableEq

/-! ## Program A (`Get_Address.go`) -/

/-- One element of `Result.Data.Json` in a decoded API response of
program A: a wallet address and its list of labels. -/
structure WalletEntry where
  address : String
  labels : List String
deriving DecidableEq

/-- One element of the top-level array decoded from the API body of
program A (`WalletItem` in the source); only its
`Result.Data.Json` list is used by the program. -/
structure WalletItem where
  json : List WalletEntry
deriving DecidableEq

/-- An output record of program A (`WalletOutput` in the source). -/
structure WalletOutput where
  address : String
  label : String
deriving DecidableEq

/-- The environment of one iteration of program A's main loop: the
channel ID being processed, the outcome of `fetchWalletData` for it
(`.error` covers the network and JSON-decoding failures that
`fetchWalletData` reports), and whether the final
`ioutil.WriteFile` succeeds. -/
structure ChannelEnv where
  channelID : String
  fetchResult : Except String (List WalletItem)
  writeOk : Bool

/-- What one iteration of program A's main loop does with its channel:
log the fetch failure and continue, log the write failure and
continue, or save the output file with the listed records. -/
inductive ChannelOutcome where
  | fetchFailed (message : String)
  | writeFailed
  | saved (outputs : List WalletOutput)
deriving DecidableEq

/-- Model of one iteration of program A's main loop (source lines
60–99): on a fetch error the channel is skipped; otherwise the code
indexes `data[0]` without a guard (a panic when the decoded list is
empty), collects an output for every entry that has at least one
label, pairing the entry's address with its first label, and writes
the file. -/
def processChannel (env : ChannelEnv) : Except GoPanic ChannelOutcome :=
  match env.fetchResult with
  | .error message => .ok (.fetchFailed message)
  | .ok data =>
    match data.get? 0 with
    | none => .error .indexOutOfRange
    | some item0 =>
      let outputs := item0.json.foldl
        (fun outs entry =>
          match entry.labels with
          | [] => outs
          | label0 :: _ => outs ++ [{ address := entry.address, label := label0 }])
        []
      if env.writeOk then .ok (.saved outputs) else .ok .writeFailed

/-- Model of program A's main loop over all command-line arguments:
one `processChannel` per channel ID, in order; a panic aborts the
whole loop. -/
def channelsLoop : List ChannelEnv → Except GoPanic (List ChannelOutcome)
  | [] => .ok []
  | env :: rest =>
    match processChannel env with
    | .error p => .error p
    | .ok outcome =>
      match channelsLoop rest with
      | .error p => .error p
      | .ok outcomes => .ok (outcome :: outcomes)

/-! ## Program B (`execute_Address.go`): data model -/

/-- A result record of program B (`Result` in the source). -/
structure Result where
  address : String
  label : String
deriving DecidableEq

/-- An address-list record of program B (`AddressItem` in the
source). -/
structure AddressItem where
  address : String
  label : String
deriving DecidableEq

/-! ## Program B: the qualification decision of `FetchAndAnalyzeData` -/

/-- The hardcoded qualification test of `FetchAndAnalyzeData` (source
lines 102–103), on the three numbers converted from the scraped JSON:
`(totalProfit >= 1000000 && solBalance >= 20 && winRate >= 0.1) ||
(totalProfit >= 10000 && winRate >= 0.755)`. -/
def qualifies (totalProfit solBalance winRate : ℚ) : Bool :=
  (decide (1000000 ≤ totalProfit) && decide (20 ≤ solBalance) &&
    decide (mkRat 1 10 ≤ winRate)) ||
  (decide (10000 ≤ totalProfit) && decide (mkRat 151 200 ≤ winRate))

/-- Decimal digits of a natural number, least significant first; the
fuel argument dominates the number of digits. -/
def natDigitsRev : Nat → Nat → List Char
  | 0, _ => []
  | fuel + 1, n => if n = 0 then [] else Char.ofNat (48 + n % 10) :: natDigitsRev fuel (n / 10)

/-- Decimal rendering of a natural number. -/
def natChars (n : Nat) : List Char :=
  if n = 0 then ['0'] else (natDigitsRev n n).reverse

/-- Pads a digit string with leading zeros up to the given width. -/
def padZeros (width : Nat) (ds : List Char) : List Char :=
  List.replicate (width - ds.length) '0' ++ ds

/-- Model of Go `fmt.Sprintf("%.<prec>f", x)` on an exact rational:
fixed-point decimal rendering with `prec` fractional digits, rounding
to the nearest (ties up).  The tie-breaking rule of `float64`
formatting differs in cases that no claim depends on. -/
def fmtFixed (prec : Nat) (q : ℚ) : List Char :=
  let n : Int := q.num * (10 : Int) ^ prec
  let d : Int := (q.den : Int)
  let rounded : Int := Int.fdiv (2 * n + d) (2 * d)
  let sign : List Char := if rounded < 0 then ['-'] else []
  let m : Nat := rounded.natAbs
  if prec = 0 then sign ++ natChars m
  else sign ++ natChars (m / 10 ^ prec) ++ ['.'] ++ padZeros prec (natChars (m % 10 ^ prec))

/-- The label that `FetchAndAnalyzeData` attaches to a qualifying
address (source lines 108–109):
`profit:%.2f,balance:%.2f,winrate:%.3f,name:%s`. -/
def resultLabel (totalProfit solBalance winRate : ℚ) (twitterName : String) : String :=
  String.mk ((r"profit:").data ++ fmtFixed 2 totalProfit ++
    (r",balance:").data ++ fmtFixed 2 solBalance ++
    (r",winrate:").data ++ fmtFixed 3 winRate ++
    (r",name:").data ++ twitterName.data)

/-- Model of the decision stage of `FetchAndAnalyzeData` (source lines
76–117), after the browser fetch and the `interface{}`-to-`float64`
conversions, whose results are the three rational arguments: a
qualifying triple produces `some` result with the formatted label, any
other triple produces `nil` (and no error). -/
def FetchAndAnalyzeData (address : String) (totalProfit solBalance winRate : ℚ)
    (twitterName : String) : Option Result :=
  if qualifies totalProfit solBalance winRate then
    some { address := address, label := resultLabel totalProfit solBalance winRate twitterName }
  else none

/-! ## Program B: deduplication and filtering -/

/-- The separator that `deduplicateAndFilter` splits labels on. -/
def winrateKey : List Char := (r"winrate:").data

/-- The win-rate a label carries, as `deduplicateAndFilter` extracts
it (source lines 177 and 191): `strings.Split(label, "winrate:")[1]`
scanned with `fmt.Sscanf(..., "%f", ...)`.  The unguarded `[1]` is an
out-of-range panic when the label does not contain `winrate:`; a
failed scan (`.ok none`) is logged and the record skipped. -/
def parseWinrate (label : String) : Except GoPanic (Option ℚ) :=
  match (splitSub label.data winrateKey).get? 1 with
  | none => .error .indexOutOfRange
  | some part => .ok (parseFloat part)

/-- Association list modelling the Go map `uniqueAddresses`. -/
abbrev AddrMap := List (String × Result)

/-- Model of a Go map lookup `m[k]`. -/
def mapFind? : AddrMap → String → Option Result
  | [], _ => none
  | (k, v) :: rest, a => if k = a then some v else mapFind? rest a

/-- Model of a Go map assignment `m[k] = v`: replaces the binding of
`k` when one exists, otherwise adds one.  (Go map iteration order is
unspecified, so no claim below depends on the order of the
bindings.) -/
def mapInsert : AddrMap → String → Result → AddrMap
  | [], k, v => [(k, v)]
  | (k', v') :: rest, k, v =>
    if k' = k then (k, v) :: rest else (k', v') :: mapInsert rest k v

/-- One iteration of the loop of `deduplicateAndFilter` (source lines
174–204): parse the record's win-rate (skipping the record when the
scan fails), discard it when the win-rate is `<= 0.1`, and otherwise
keep it unless an already-kept record for the same address has a
win-rate that is not strictly lower. -/
def dedupStep (m : AddrMap) (result : Result) : Except GoPanic AddrMap :=
  match parseWinrate result.label with
  | .error p => .error p
  | .ok none => .ok m
  | .ok (some winrate) =>
    if winrate ≤ mkRat 1 10 then .ok m
    else
      match mapFind? m result.address with
      | some existing =>
        match parseWinrate existing.label with
        | .error p => .error p
        | .ok none => .ok m
        | .ok (some existingWinrate) =>
          if winrate > existingWinrate then .ok (mapInsert m result.address result)
          else .ok m
      | none => .ok (mapInsert m result.address result)

/-- The loop of `deduplicateAndFilter` over the whole input. -/
def dedupLoop : AddrMap → List Result → Except GoPanic AddrMap
  | m, [] => .ok m
  | m, result :: rest =>
    match dedupStep m result with
    | .error p => .error p
    | .ok m' => dedupLoop m' rest

/-- Model of `deduplicateAndFilter` (source lines 171–213): fold the
input into the map and return its values. -/
def deduplicateAndFilter (results : List Result) : Except GoPanic (List Result) :=
  match dedupLoop [] results with
  | .error p => .error p
  | .ok m => .ok (m.map (fun p => p.2))

/-! ## JSON values (model of `encoding/json` at the value level) -/

/-- A JSON value.  `json.MarshalIndent` and `json.Unmarshal` are
modelled as maps to and from this type; the byte-level rendering and
parsing between which they sit are faithful inverses on the values
involved here, so the text layer is elided. -/
inductive Json where
  | null
  | bool (b : Bool)
  | num (q : ℚ)
  | str (s : String)
  | arr (elements : List Json)
  | obj (fields : List (String × Json))

/-- Model of `json.Marshal` of one `AddressItem`. -/
def marshalAddressItem (item : AddressItem) : Json :=
  .obj [((r"address"), .str item.address), ((r"label"), .str item.label)]

/-- Model of `json.MarshalIndent` of a `[]AddressItem`. -/
def marshalAddressItems (items : List AddressItem) : Json :=
  .arr (items.map marshalAddressItem)

/-- The value a JSON object gives a key: Go's `Unmarshal` decodes the
fields in order and later duplicates overwrite earlier ones. -/
def jsonLookupLast (fields : List (String × Json)) (key : String) : Option Json :=
  fields.foldl (fun acc field => if field.1 = key then some field.2 else acc) none

/-- Decoding of one string-typed struct field by Go's `Unmarshal`: a
missing key or a JSON `null` leaves the field at its zero value `""`,
a string is taken as is, and any other value is a decoding error. -/
def getStringField (fields : List (String × Json)) (key : String) : Option String :=
  match jsonLookupLast fields key with
  | none => some (r"")
  | some (.str s) => some s
  | some .null => some (r"")
  | some _ => none

/-- Model of `json.Unmarshal` of one `AddressItem`. -/
def unmarshalAddressItem : Json → Option AddressItem
  | .obj fields =>
    match getStringField fields (r"address"), getStringField fields (r"label") with
    | some address, some label => some { address := address, label := label }
    | _, _ => none
  | .null => some { address := (r""), label := (r"") }
  | _ => none

/-- Decoding of the elements of a JSON array into `AddressItem`s, in
order, aborting on the first failure as Go's `Unmarshal` does. -/
def unmarshalItems : List Json → Option (List AddressItem)
  | [] => some []
  | j :: rest =>
    match unmarshalAddressItem j, unmarshalItems rest with
    | some item, some items => some (item :: items)
    | _, _ => none

/-- Model of the `.json` branch of `readAddressesFromFile` (source
lines 126–133): `json.Unmarshal` of the file's content into a
`[]AddressItem`.  A JSON `null` decodes to the nil slice. -/
def readAddressesFromFile : Json → Option (List AddressItem)
  | .arr elements => unmarshalItems elements
  | .null => some []
  | _ => none

/-! ## Program B: per-file processing (`processAddressFiles`) -/

/-- What `processAddressFiles` does to one input file after analyzing
its addresses (source lines 256–288): rewrite it with the qualifying
records — as JSON for a `.json` file, as a header line plus
`address  label` lines for a `.txt` file — or delete it. -/
inductive FileAction where
  | rewriteJson (content : Json)
  | rewriteTxt (content : List Char)
  | delete

/-- The text rendering that `processAddressFiles` writes for a `.txt`
file (source lines 270–274): a header line followed by one
`"%s  %s\n"` line per record. -/
def renderTxtFile (items : List AddressItem) : List Char :=
  (r"address  label").data ++ ['\n'] ++
    items.foldl
      (fun acc item => acc ++ item.address.data ++ [' ', ' '] ++ item.label.data ++ ['\n'])
      []

/-- Model of the per-file body of `processAddressFiles` (source lines
238–288).  `analyze` is the outcome of `FetchAndAnalyzeData` per
address: `.error` is a scrape or decode failure (logged, the address
is skipped), `.ok none` a non-qualifying address, `.ok (some r)` a
qualifying one.  The loop collects the original records of the
qualifying addresses and their result records; afterwards the file is
rewritten in its own format when anything qualified and deleted
otherwise.  Returns the file action and the result records the file
contributes to the consolidated output. -/
def processOneFile (analyze : String → Except String (Option Result)) (ext : String)
    (addresses : List AddressItem) : FileAction × List Result :=
  let acc := addresses.foldl
    (fun (acc : List AddressItem × List Result) item =>
      match analyze item.address with
      | .error _ => acc
      | .ok none => acc
      | .ok (some result) => (acc.1 ++ [item], acc.2 ++ [result]))
    ([], [])
  let action :=
    if acc.1.length > 0 then
      if ext = (r".json") then FileAction.rewriteJson (marshalAddressItems acc.1)
      else FileAction.rewriteTxt (renderTxtFile acc.1)
    else FileAction.delete
  (action, acc.2)

/-- Whether one address qualifies under the `analyze` oracle, i.e.
whether `FetchAndAnalyzeData` returned a non-nil result for it. -/
def isQualifiedBy (analyze : String → Except String (Option Result)) (item : AddressItem) : Bool :=
  match analyze item.address with
  | .ok (some _) => true
  | _ => false

/-- The environment of one directory entry in the loop of
`processAddressFiles`: its name, extension and the outcome of
`readAddressesFromFile` on it (`.error` covers read and decode
failures). -/
structure FileEnv where
  name : String
  ext : String
  readResult : Except String (List AddressItem)

/-- What the loop of `processAddressFiles` does with one file: log the
read failure and continue, or process the file's addresses. -/
inductive FileOutcome where
  | readFailed (message : String)
  | processed (action : FileAction) (results : List Result)

/-- One iteration of the file loop of `processAddressFiles` (source
lines 228–253): a file that fails to read is logged and skipped,
any other file is processed address by address. -/
def fileStep (analyze : String → Except String (Option Result)) (f : FileEnv) : FileOutcome :=
  match f.readResult with
  | .error message => .readFailed message
  | .ok addresses =>
    let pr := processOneFile analyze f.ext addresses
    .processed pr.1 pr.2

/-- The file loop of `processAddressFiles`: each file is handled
independently of every other. -/
def filesLoop (analyze : String → Except String (Option Result)) (fs : List FileEnv) :
    List FileOutcome :=
  fs.map (fileStep analyze)

/-! ## Program B: the timing skeleton of the per-address loop -/

/-- An externally visible step of the per-address loop: a scrape of
one address (carrying the timeout, in seconds, of its browser session
and whether the scrape failed) or a call of `time.Sleep` (carrying the
duration in seconds). -/
inductive Event where
  | scrape (address : String) (timeoutSeconds : Nat) (failed : Bool)
  | sleep (seconds : Nat)
deriving DecidableEq

/-- The timeout that `FetchAndAnalyzeData` puts on each browser
session (source line 56): 30 seconds. -/
def sessionTimeoutSeconds : Nat := 30

/-- The delay of the `time.Sleep` call after each address (source
line 252): 2 seconds. -/
def perAddressSleepSeconds : Nat := 2

/-- The sequence of scrape and sleep steps that the per-address loop
of `processAddressFiles` performs (source lines 243–253): for each
address in order, one scrape with a 30-second session timeout and then
one sleep of 2 seconds — the sleep sits after the whole
`if`/`else`, so it runs whether the scrape failed or not. -/
def addressLoopEvents (analyze : String → Except String (Option Result))
    (addresses : List AddressItem) : List Event :=
  addresses.foldl
    (fun trace item =>
      trace ++
        [Event.scrape item.address sessionTimeoutSeconds
          (match analyze item.address with
            | .error _ => true
            | .ok _ => false),
          Event.sleep perAddressSleepSeconds])
    []

/-! ## The invariant of the deduplication loop -/

/-- Invariant tying the map of `dedupLoop` to the prefix `seen` of the
input already consumed: the keys are distinct; every binding holds a
record already seen, keyed by its own address, whose win-rate parses,
exceeds `0.1`, and is at least the win-rate of every parseable seen
record with the same address; and every seen record whose win-rate
parses and exceeds `0.1` has a binding for its address. -/
def DedupInv (m : AddrMap) (seen : List Result) : Prop :=
  (m.map Prod.fst).Nodup
  ∧ (∀ p ∈ m, p.2.address = p.1 ∧ p.2 ∈ seen ∧
      ∃ w, parseWinrate p.2.label = .ok (some w) ∧ mkRat 1 10 < w ∧
        ∀ r' ∈ seen, r'.address = p.1 →
          ∀ w', parseWinrate r'.label = .ok (some w') → w' ≤ w)
  ∧ (∀ r' ∈ seen, ∀ w', parseWinrate r'.label = .ok (some w') → mkRat 1 10 < w' →
      ∃ p ∈ m, p.1 = r'.address)

/-! ## Helper lemmas: folds that append -/

lemma foldl_append_init {α β : Type} (g : α → List β) (l : List α) :
    ∀ init : List β,
      l.foldl (fun tr a => tr ++ g a) init = init ++ l.foldl (fun tr a => tr ++ g a) [] := by
  induction l with
  | nil => intro init; simp
  | cons a rest ih =>
    intro init
    rw [List.foldl_cons, List.foldl_cons, ih (init ++ g a), ih ([] ++ g a)]
    simp

lemma walletOutputs_foldl (entries : List WalletEntry) :
    ∀ init : List WalletOutput,
      entries.foldl
        (fun outs entry =>
          match entry.labels with
          | [] => outs
          | label0 :: _ => outs ++ [{ address := entry.address, label := label0 }]) init
      = init ++ entries.filterMap
          (fun entry =>
            match entry.labels with
            | [] => none
            | label0 :: _ => some { address := entry.address, label := label0 }) := by
  induction entries with
  | nil => intro init; simp
  | cons entry rest ih =>
    intro init
    rw [List.foldl_cons]
    cases hl : entry.labels with
    | nil => rw [ih]; simp [List.filterMap_cons, hl]
    | cons l ls => rw [ih]; simp [List.filterMap_cons, hl]

/-! ## Helper lemmas: the association-list model of the Go map -/

lemma mapFind?_mem : ∀ (m : AddrMap) (k : String) (v : Result),
    mapFind? m k = some v → (k, v) ∈ m := by
  intro m
  induction m with
  | nil => intro k v h; exact absurd h (by simp [mapFind?])
  | cons p rest ih =>
    intro k v h
    obtain ⟨k', v'⟩ := p
    simp only [mapFind?] at h
    by_cases hk : k' = k
    · rw [if_pos hk] at h
      injection h with hv
      subst hv
      subst hk
      exact List.mem_cons_self _ _
    · rw [if_neg hk] at h
      exact List.mem_cons_of_mem _ (ih k v h)

lemma mapFind?_eq_none : ∀ (m : AddrMap) (k : String),
    mapFind? m k = none → k ∉ m.map Prod.fst := by
  intro m
  induction m with
  | nil => intro k _; simp
  | cons p rest ih =>
    intro k h
    obtain ⟨k', v'⟩ := p
    simp only [mapFind?] at h
    by_cases hk : k' = k
    · rw [if_pos hk] at h
      exact absurd h (by simp)
    · rw [if_neg hk] at h
      simp only [List.map_cons, List.mem_cons]
      rintro (h1 | h2)
      · exact hk h1.symm
      · exact ih k h h2

lemma mem_mapInsert_self (m : AddrMap) (k : String) (v : Result) :
    (k, v) ∈ mapInsert m k v := by
  induction m with
  | nil => simp [mapInsert]
  | cons p rest ih =>
    obtain ⟨k', v'⟩ := p
    simp only [mapInsert]
    by_cases hk : k' = k
    · rw [if_pos hk]
      exact List.mem_cons_self _ _
    · rw [if_neg hk]
      exact List.mem_cons_of_mem _ ih

lemma mem_keys_mapInsert {m : AddrMap} {k a : String} {v : Result} :
    a ∈ (mapInsert m k v).map Prod.fst ↔ a ∈ m.map Prod.fst ∨ a = k := by
  induction m with
  | nil => simp [mapInsert]
  | cons p rest ih =>
    obtain ⟨k', v'⟩ := p
    simp only [mapInsert]
    by_cases hk : k' = k
    · rw [if_pos hk]
      subst hk
      simp only [List.map_cons, List.mem_cons]
      tauto
    · rw [if_neg hk]
      simp only [List.map_cons, List.mem_cons, ih]
      tauto

lemma nodupKeys_mapInsert {m : AddrMap} {k : String} {v : Result}
    (h : (m.map Prod.fst).Nodup) : ((mapInsert m k v).map Prod.fst).Nodup := by
  induction m with
  | nil => simp [mapInsert]
  | cons p rest ih =>
    obtain ⟨k', v'⟩ := p
    simp only [List.map_cons, List.nodup_cons] at h
    simp only [mapInsert]
    by_cases hk : k' = k
    · rw [if_pos hk]
      subst hk
      simp only [List.map_cons, List.nodup_cons]
      exact h
    · rw [if_neg hk]
      simp only [List.map_cons, List.nodup_cons]
      refine ⟨fun hmem => ?_, ih h.2⟩
      rcases mem_keys_mapInsert.mp hmem with h1 | h2
      · exact h.1 h1
      · exact hk h2

lemma mem_mapInsert_strong {m : AddrMap} {k : String} {v : Result} {p : String × Result}
    (hnd : (m.map Prod.fst).Nodup) (h : p ∈ mapInsert m k v) :
    p = (k, v) ∨ (p ∈ m ∧ p.1 ≠ k) := by
  induction m with
  | nil =>
    simp only [mapInsert, List.mem_singleton] at h
    exact Or.inl h
  | cons q rest ih =>
    obtain ⟨k', v'⟩ := q
    simp only [List.map_cons, List.nodup_cons] at hnd
    simp only [mapInsert] at h
    by_cases hk : k' = k
    · rw [if_pos hk] at h
      subst hk
      rcases List.mem_cons.mp h with h1 | h2
      · exact Or.inl h1
      · refine Or.inr ⟨List.mem_cons_of_mem _ h2, fun hpk => ?_⟩
        exact hnd.1 (hpk ▸ List.mem_map_of_mem Prod.fst h2)
    · rw [if_neg hk] at h
      rcases List.mem_cons.mp h with h1 | h2
      · subst h1
        exact Or.inr ⟨List.mem_cons_self _ _, hk⟩
      · rcases ih hnd.2 h2 with h3 | ⟨h4, h5⟩
        · exact Or.inl h3
        · exact Or.inr ⟨List.mem_cons_of_mem _ h4, h5⟩

/-! ## Helper lemmas: the split and the panic guard -/

lemma splitSubAux_length_pos (sep : List Char) :
    ∀ (fuel : Nat) (s acc : List Char), 1 ≤ (splitSubAux sep fuel s acc).length := by
  intro fuel
  induction fuel with
  | zero => intro s acc; cases s <;> simp [splitSubAux]
  | succ fuel ih =>
    intro s acc
    cases s with
    | nil => simp [splitSubAux]
    | cons c rest =>
      simp only [splitSubAux]
      split
      · simp
      · exact ih rest (c :: acc)

lemma splitSubAux_length_ge_two (sep : List Char) (hsep : sep ≠ []) :
    ∀ (s : List Char) (fuel : Nat) (acc : List Char),
      containsSub s sep = true → s.length ≤ fuel →
      2 ≤ (splitSubAux sep fuel s acc).length := by
  intro s
  induction s with
  | nil =>
    intro fuel acc hc _
    cases sep with
    | nil => exact absurd rfl hsep
    | cons c cs => simp [containsSub, leadsWith] at hc
  | cons c rest ih =>
    intro fuel acc hc hlen
    cases fuel with
    | zero => simp at hlen
    | succ fuel =>
      simp only [splitSubAux]
      by_cases hpre : leadsWith sep (c :: rest) = true
      · rw [if_pos hpre]
        have := splitSubAux_length_pos sep fuel ((c :: rest).drop sep.length) []
        simp only [List.length_cons]
        omega
      · rw [if_neg hpre]
        have hc' : containsSub rest sep = true := by
          simp only [containsSub, Bool.or_eq_true] at hc
          rcases hc with h | h
          · exact absurd h hpre
          · exact h
        have hlen' : rest.length ≤ fuel := by
          simp only [List.length_cons] at hlen
          omega
        exact ih fuel (c :: acc) hc' hlen'

lemma parseWinrate_ok_of_contains {label : String}
    (h : containsSub label.data winrateKey = true) :
    ∃ o, parseWinrate label = .ok o := by
  have hk : winrateKey ≠ [] := by decide
  have h2 : 2 ≤ (splitSub label.data winrateKey).length :=
    splitSubAux_length_ge_two winrateKey hk label.data label.data.length [] h le_rfl
  unfold parseWinrate
  cases hg : (splitSub label.data winrateKey).get? 1 with
  | none =>
    have := List.get?_eq_none.mp hg
    omega
  | some part =>
    exact ⟨parseFloat part, rfl⟩

/-! ## C1: the qualification rule -/

lemma qualifies_eq_true_iff (tp sb wr : ℚ) :
    qualifies tp sb wr = true ↔
      ((tp ≥ 1000000 ∧ sb ≥ 20 ∧ wr ≥ 0.1) ∨ (tp ≥ 10000 ∧ wr ≥ 0.755)) := by
  have h1 : (mkRat 1 10 : ℚ) = 0.1 := by norm_num [Rat.mkRat_eq_div]
  have h2 : (mkRat 151 200 : ℚ) = 0.755 := by norm_num [Rat.mkRat_eq_div]
  simp [qualifies, h1, h2, ge_iff_le, Bool.and_eq_true, Bool.or_eq_true,
    decide_eq_true_eq, and_assoc]

/-- C1: the qualification decision of `FetchAndAnalyzeData` is a pure
function of the three parsed numbers — the produced `Option` is `some`
independently of the address and the twitter name — and a non-nil
`Result` is produced iff `(total_profit ≥ 1000000 ∧ sol_balance ≥ 20 ∧
win_rate ≥ 0.1) ∨ (total_profit ≥ 10000 ∧ win_rate ≥ 0.755)`. -/
theorem fetchAndAnalyzeData_qualification (a a' twitterName twitterName' : String)
    (tp sb wr : ℚ) :
    (FetchAndAnalyzeData a tp sb wr twitterName).isSome
      = (FetchAndAnalyzeData a' tp sb wr twitterName').isSome
    ∧ ((FetchAndAnalyzeData a tp sb wr twitterName).isSome = true ↔
        ((tp ≥ 1000000 ∧ sb ≥ 20 ∧ wr ≥ 0.1) ∨ (tp ≥ 10000 ∧ wr ≥ 0.755))) := by
  constructor
  · cases hq : qualifies tp sb wr <;> simp [FetchAndAnalyzeData, hq]
  · rw [← qualifies_eq_true_iff]
    cases hq : qualifies tp sb wr <;> simp [FetchAndAnalyzeData, hq]

/-! ## C5: the JSON round trip -/

lemma unmarshal_marshal_item (item : AddressItem) :
    unmarshalAddressItem (marshalAddressItem item) = some item := by
  simp [marshalAddressItem, unmarshalAddressItem, getStringField, jsonLookupLast]

/-- C5: writing a list of address records as a JSON address list
(`json.MarshalIndent` of `[]AddressItem`) and re-reading it with
`readAddressesFromFile` yields the same records. -/
theorem json_address_list_round_trip (items : List AddressItem) :
    readAddressesFromFile (marshalAddressItems items) = some items := by
  have h : ∀ js : List AddressItem, unmarshalItems (js.map marshalAddressItem) = some js := by
    intro js
    induction js with
    | nil => rfl
    | cons item rest ih => simp [unmarshalItems, unmarshal_marshal_item, ih]
  simpa [readAddressesFromFile, marshalAddressItems] using h items

/-! ## C6: what program A writes per channel -/

/-- C6: for every successfully fetched and decoded response of
program A whose list is non-empty and whose file write succeeds, the
saved records are exactly those of the entries that have at least one
label, each pairing the entry's address with its first label; and the
main loop produces one outcome per command-line argument. -/
theorem processChannel_writes_labeled_entries :
    (∀ (env : ChannelEnv) (item0 : WalletItem) (rest : List WalletItem),
      env.fetchResult = .ok (item0 :: rest) → env.writeOk = true →
      processChannel env = .ok (.saved (item0.json.filterMap
        (fun entry =>
          match entry.labels with
          | [] => none
          | label0 :: _ => some { address := entry.address, label := label0 }))))
    ∧ (∀ (envs : List ChannelEnv) (outcomes : List ChannelOutcome),
        channelsLoop envs = .ok outcomes → outcomes.length = envs.length) := by
  constructor
  · intro env item0 rest hfetch hwrite
    simp only [processChannel, hfetch, List.get?_cons_zero]
    rw [walletOutputs_foldl item0.json []]
    rw [hwrite]
    simp
  · intro envs
    induction envs with
    | nil =>
      intro outcomes h
      simp only [channelsLoop] at h
      cases h
      rfl
    | cons env rest ih =>
      intro outcomes h
      simp only [channelsLoop] at h
      cases hpc : processChannel env with
      | error p => rw [hpc] at h; cases h
      | ok o =>
        rw [hpc] at h
        cases hcl : channelsLoop rest with
        | error p => rw [hcl] at h; cases h
        | ok os =>
          rw [hcl] at h
          cases h
          simp [ih os hcl]

/-- Witness for C6 at a concrete response: one entry with two labels
is written with its first label, one entry with no label is
dropped. -/
theorem processChannel_writes_labeled_entries_witness :
    processChannel
        { channelID := (r"c"),
          fetchResult := Except.ok [{ json := [
            { address := (r"a1"), labels := [(r"l1"), (r"l2")] },
            { address := (r"a2"), labels := [] }] }],
          writeOk := true }
      = .ok (.saved [{ address := (r"a1"), label := (r"l1") }]) := by
  have h := processChannel_writes_labeled_entries.1
    { channelID := (r"c"),
      fetchResult := Except.ok [{ json := [
        { address := (r"a1"), labels := [(r"l1"), (r"l2")] },
        { address := (r"a2"), labels := [] }] }],
      writeOk := true }
    { json := [
        { address := (r"a1"), labels := [(r"l1"), (r"l2")] },
        { address := (r"a2"), labels := [] }] }
    [] rfl rfl
  exact h.trans (by rfl)

/-! ## C8: the unguarded `data[0]` -/

/-- C8: program A indexes `data[0]` without a guard: a successful
fetch with a non-empty decoded list is processed without a panic, a
successful fetch decoding to an empty list panics
(index out of range), and such a panic aborts the whole channel loop
instead of being skipped like the handled failures. -/
theorem channel_first_index_unguarded :
    (∀ (env : ChannelEnv) (item0 : WalletItem) (rest : List WalletItem),
      env.fetchResult = .ok (item0 :: rest) →
      ∃ outcome, processChannel env = .ok outcome)
    ∧ (∀ env : ChannelEnv, env.fetchResult = .ok [] →
        processChannel env = .error .indexOutOfRange)
    ∧ (∀ (envs rest : List ChannelEnv) (env : ChannelEnv), env.fetchResult = .ok [] →
        channelsLoop (envs ++ env :: rest)
          = match channelsLoop envs with
            | .error p => .error p
            | .ok _ => .error .indexOutOfRange) := by
  refine ⟨?_, ?_, ?_⟩
  · intro env item0 rest hfetch
    simp only [processChannel, hfetch, List.get?_cons_zero]
    cases hw : env.writeOk <;> simp
  · intro env hfetch
    simp [processChannel, hfetch]
  · intro envs rest env hfetch
    induction envs with
    | nil =>
      have hpe : processChannel env = .error .indexOutOfRange := by
        simp [processChannel, hfetch]
      simp [channelsLoop, hpe]
    | cons e es ih =>
      rw [List.cons_append]
      simp only [channelsLoop]
      cases hpc : processChannel e with
      | error p => rfl
      | ok o =>
        rw [ih]
        cases hcl : channelsLoop es with
        | error p => rfl
        | ok os => rfl

/-- Witness for C8 at concrete inputs: a one-item response passes, an
empty response panics, and the panic aborts the loop after a healthy
first channel. -/
theorem channel_first_index_unguarded_witness :
    (∃ outcome, processChannel
        { channelID := (r"c"), fetchResult := Except.ok [{ json := [] }], writeOk := true }
      = .ok outcome)
    ∧ processChannel
        { channelID := (r"c"), fetchResult := Except.ok [], writeOk := true }
      = .error .indexOutOfRange
    ∧ channelsLoop
        [{ channelID := (r"c0"), fetchResult := Except.ok [{ json := [] }], writeOk := true },
         { channelID := (r"c"), fetchResult := Except.ok [], writeOk := true }]
      = match channelsLoop
          [{ channelID := (r"c0"), fetchResult := Except.ok [{ json := [] }], writeOk := true }] with
        | .error p => .error p
        | .ok _ => .error .indexOutOfRange :=
  ⟨channel_first_index_unguarded.1
      { channelID := (r"c"), fetchResult := Except.ok [{ json := [] }], writeOk := true }
      { json := [] } [] rfl,
    channel_first_index_unguarded.2.1
      { channelID := (r"c"), fetchResult := Except.ok [], writeOk := true } rfl,
    channel_first_index_unguarded.2.2
      [{ channelID := (r"c0"), fetchResult := Except.ok [{ json := [] }], writeOk := true }]
      []
      { channelID := (r"c"), fetchResult := Except.ok [], writeOk := true } rfl⟩

/-! ## C3: failures skip only the failing item -/

lemma processOneFile_fold_fst (analyze : String → Except String (Option Result)) :
    ∀ (addrs : List AddressItem) (acc : List AddressItem × List Result),
      (addrs.foldl
        (fun (acc : List AddressItem × List Result) item =>
          match analyze item.address with
          | .error _ => acc
          | .ok none => acc
          | .ok (some result) => (acc.1 ++ [item], acc.2 ++ [result])) acc).1
      = acc.1 ++ addrs.filter (isQualifiedBy analyze) := by
  intro addrs
  induction addrs with
  | nil => intro acc; simp
  | cons item rest ih =>
    intro acc
    rw [List.foldl_cons]
    cases ha : analyze item.address with
    | error e => simp [List.filter_cons, isQualifiedBy, ha, ih]
    | ok oro =>
      cases oro with
      | none => simp [List.filter_cons, isQualifiedBy, ha, ih]
      | some result => simp [List.filter_cons, isQualifiedBy, ha, ih]

/-- C3: a failing item is skipped and only that item: a channel whose
fetch fails contributes a logged failure outcome while every other
channel is processed as it would be alone; a file whose read fails
contributes a logged failure outcome while every other file is
processed as it would be alone; an address whose scrape fails changes
nothing about how the remaining addresses of its file are
processed. -/
theorem failure_skips_only_failing_item :
    (∀ (envs1 envs2 : List ChannelEnv) (env : ChannelEnv) (message : String)
        (o1 o2 : List ChannelOutcome),
      env.fetchResult = .error message →
      channelsLoop envs1 = .ok o1 → channelsLoop envs2 = .ok o2 →
      channelsLoop (envs1 ++ env :: envs2) = .ok (o1 ++ .fetchFailed message :: o2))
    ∧ (∀ (analyze : String → Except String (Option Result)) (fs1 fs2 : List FileEnv)
        (f : FileEnv) (message : String),
      f.readResult = .error message →
      filesLoop analyze (fs1 ++ f :: fs2)
        = filesLoop analyze fs1 ++ .readFailed message :: filesLoop analyze fs2)
    ∧ (∀ (analyze : String → Except String (Option Result)) (ext : String)
        (addrs1 addrs2 : List AddressItem) (item : AddressItem) (e : String),
      analyze item.address = .error e →
      processOneFile analyze ext (addrs1 ++ item :: addrs2)
        = processOneFile analyze ext (addrs1 ++ addrs2)) := by
  refine ⟨?_, ?_, ?_⟩
  · intro envs1 envs2 env message o1 o2 hfetch
    induction envs1 generalizing o1 with
    | nil =>
      intro h1 h2
      simp only [channelsLoop] at h1
      cases h1
      have hpe : processChannel env = .ok (.fetchFailed message) := by
        simp [processChannel, hfetch]
      simp [channelsLoop, hpe, h2]
    | cons e es ih =>
      intro h1 h2
      rw [List.cons_append]
      simp only [channelsLoop] at h1 ⊢
      cases hpc : processChannel e with
      | error p => rw [hpc] at h1; cases h1
      | ok o =>
        rw [hpc] at h1
        cases hcl : channelsLoop es with
        | error p => rw [hcl] at h1; cases h1
        | ok os =>
          rw [hcl] at h1
          cases h1
          rw [ih os hcl h2]
          simp
  · intro analyze fs1 fs2 f message hread
    have hstep : fileStep analyze f = .readFailed message := by
      simp [fileStep, hread]
    simp [filesLoop, hstep]
  · intro analyze ext addrs1 addrs2 item e he
    unfold processOneFile
    simp only [List.foldl_append, List.foldl_cons, he]

/-- Witness for C3 at concrete inputs: a fetch failure in a
one-channel list, a read failure in a one-file list, and a scrape
failure on the only address of a file. -/
theorem failure_skips_only_failing_item_witness :
    channelsLoop [{ channelID := (r"c"), fetchResult := Except.error (r"boom"), writeOk := true }]
      = .ok ([] ++ .fetchFailed (r"boom") :: [])
    ∧ filesLoop (fun _ => Except.ok none)
        ([] ++ { name := (r"f.json"), ext := (r".json"),
                 readResult := Except.error (r"bad") } :: [])
      = filesLoop (fun _ => Except.ok none) []
        ++ .readFailed (r"bad") :: filesLoop (fun _ => Except.ok none) []
    ∧ processOneFile (fun _ => Except.error (r"down")) (r".json")
        ([] ++ { address := (r"a"), label := (r"l") } :: [])
      = processOneFile (fun _ => Except.error (r"down")) (r".json") ([] ++ []) :=
  ⟨failure_skips_only_failing_item.1 [] []
      { channelID := (r"c"), fetchResult := Except.error (r"boom"), writeOk := true }
      (r"boom") [] [] rfl rfl rfl,
    failure_skips_only_failing_item.2.1 (fun _ => Except.ok none) [] []
      { name := (r"f.json"), ext := (r".json"), readResult := Except.error (r"bad") }
      (r"bad") rfl,
    failure_skips_only_failing_item.2.2 (fun _ => Except.error (r"down")) (r".json") [] []
      { address := (r"a"), label := (r"l") } (r"down") rfl⟩

/-! ## C4: rewrite with exactly the qualifiers, or delete -/

/-- C4: for every processed file of program B, when at least one
address qualifies the file is rewritten with exactly the original
records of the qualifying addresses, rendered in the file's own format
(JSON for `.json`, the header-plus-lines text for anything else), and
when none qualifies the file is deleted. -/
theorem processOneFile_rewrite_or_delete (analyze : String → Except String (Option Result))
    (ext : String) (addrs : List AddressItem) :
    (processOneFile analyze ext addrs).1 =
      if addrs.filter (isQualifiedBy analyze) = [] then FileAction.delete
      else if ext = (r".json") then
        FileAction.rewriteJson (marshalAddressItems (addrs.filter (isQualifiedBy analyze)))
      else FileAction.rewriteTxt (renderTxtFile (addrs.filter (isQualifiedBy analyze))) := by
  have hfold := processOneFile_fold_fst analyze addrs ([], [])
  simp only [processOneFile, hfold, List.nil_append]
  by_cases hempty : addrs.filter (isQualifiedBy analyze) = []
  · simp [hempty]
  · have hlen : (addrs.filter (isQualifiedBy analyze)).length > 0 :=
      List.length_pos.mpr hempty
    simp [hempty, hlen]

/-! ## C7: the timing skeleton of the per-address loop -/

lemma addressLoopEvents_cons (analyze : String → Except String (Option Result))
    (item : AddressItem) (rest : List AddressItem) :
    addressLoopEvents analyze (item :: rest)
      = Event.scrape item.address sessionTimeoutSeconds
          (match analyze item.address with
            | .error _ => true
            | .ok _ => false)
        :: Event.sleep perAddressSleepSeconds :: addressLoopEvents analyze rest := by
  unfold addressLoopEvents
  rw [List.foldl_cons]
  rw [foldl_append_init]
  simp

lemma addressLoopEvents_length (analyze : String → Except String (Option Result)) :
    ∀ addrs : List AddressItem, (addressLoopEvents analyze addrs).length = 2 * addrs.length := by
  intro addrs
  induction addrs with
  | nil => rfl
  | cons item rest ih =>
    rw [addressLoopEvents_cons]
    simp only [List.length_cons, ih]
    omega

/-- C7: the per-address loop of program B is strictly sequential — its
step sequence is one scrape followed by one 2-second sleep per address
in input order, so the sleep runs after every address, failed or not —
and each scrape carries its 30-second browser-session timeout. -/
theorem address_loop_sequential_sleep (analyze : String → Except String (Option Result))
    (addrs : List AddressItem) (i : Nat) (h : i < addrs.length) :
    (addressLoopEvents analyze addrs).length = 2 * addrs.length
    ∧ (∃ failed, (addressLoopEvents analyze addrs).get? (2 * i)
        = some (Event.scrape (addrs.get ⟨i, h⟩).address 30 failed))
    ∧ (addressLoopEvents analyze addrs).get? (2 * i + 1) = some (Event.sleep 2) := by
  refine ⟨addressLoopEvents_length analyze addrs, ?_⟩
  induction addrs generalizing i with
  | nil => exact absurd h (by simp)
  | cons item rest ih =>
    cases i with
    | zero =>
      rw [addressLoopEvents_cons]
      exact ⟨⟨_, rfl⟩, rfl⟩
    | succ i =>
      have h' : i < rest.length := by
        simp only [List.length_cons] at h
        omega
      rw [addressLoopEvents_cons]
      have harith : 2 * (i + 1) = 2 * i + 1 + 1 := by omega
      rw [harith]
      simp only [List.get?_cons_succ]
      rw [List.get_cons_succ]
      exact ih i h'

/-- Witness for C7 on a one-address list with a succeeding scrape. -/
theorem address_loop_sequential_sleep_witness :
    (addressLoopEvents (fun _ => Except.ok none)
        [{ address := (r"a"), label := (r"l") }]).length
      = 2 * ([{ address := (r"a"), label := (r"l") }] : List AddressItem).length
    ∧ (∃ failed, (addressLoopEvents (fun _ => Except.ok none)
          [{ address := (r"a"), label := (r"l") }]).get? (2 * 0)
        = some (Event.scrape
            (([{ address := (r"a"), label := (r"l") }] : List AddressItem).get
              ⟨0, by decide⟩).address 30 failed))
    ∧ (addressLoopEvents (fun _ => Except.ok none)
        [{ address := (r"a"), label := (r"l") }]).get? (2 * 0 + 1)
      = some (Event.sleep 2) :=
  address_loop_sequential_sleep (fun _ => Except.ok none)
    [{ address := (r"a"), label := (r"l") }] 0 (by decide)

/-! ## C9: the unguarded split index in the dedup loop -/

lemma mem_mapInsert_weak {m : AddrMap} {k : String} {v : Result} {p : String × Result}
    (h : p ∈ mapInsert m k v) : p = (k, v) ∨ p ∈ m := by
  induction m with
  | nil =>
    simp only [mapInsert, List.mem_singleton] at h
    exact Or.inl h
  | cons q rest ih =>
    obtain ⟨k', v'⟩ := q
    simp only [mapInsert] at h
    by_cases hk : k' = k
    · rw [if_pos hk] at h
      rcases List.mem_cons.mp h with h1 | h2
      · exact Or.inl h1
      · exact Or.inr (List.mem_cons_of_mem _ h2)
    · rw [if_neg hk] at h
      rcases List.mem_cons.mp h with h1 | h2
      · exact Or.inr (by rw [h1]; exact List.mem_cons_self _ _)
      · rcases ih h2 with h3 | h4
        · exact Or.inl h3
        · exact Or.inr (List.mem_cons_of_mem _ h4)

lemma dedupLoop_ok_of_contains :
    ∀ (rs : List Result), (∀ r ∈ rs, containsSub r.label.data winrateKey = true) →
      ∀ m : AddrMap, (∀ p ∈ m, containsSub p.2.label.data winrateKey = true) →
      ∃ m', dedupLoop m rs = .ok m' := by
  intro rs
  induction rs with
  | nil => intro _ m _; exact ⟨m, rfl⟩
  | cons r rest ih =>
    intro hall m hm
    have hrest : ∀ r' ∈ rest, containsSub r'.label.data winrateKey = true :=
      fun r' hr' => hall r' (List.mem_cons_of_mem _ hr')
    have hr := hall r (List.mem_cons_self _ _)
    obtain ⟨o, ho⟩ := parseWinrate_ok_of_contains hr
    have hins : ∀ p ∈ mapInsert m r.address r, containsSub p.2.label.data winrateKey = true := by
      intro p hp
      rcases mem_mapInsert_weak hp with h1 | h2
      · rw [h1]; exact hr
      · exact hm p h2
    cases o with
    | none =>
      have hstep : dedupStep m r = .ok m := by simp [dedupStep, ho]
      simp only [dedupLoop, hstep]
      exact ih hrest m hm
    | some w =>
      by_cases hle : w ≤ mkRat 1 10
      · have hstep : dedupStep m r = .ok m := by simp [dedupStep, ho, hle]
        simp only [dedupLoop, hstep]
        exact ih hrest m hm
      · cases hf : mapFind? m r.address with
        | none =>
          have hstep : dedupStep m r = .ok (mapInsert m r.address r) := by
            simp [dedupStep, ho, hle, hf]
          simp only [dedupLoop, hstep]
          exact ih hrest _ hins
        | some existing =>
          have hex : (r.address, existing) ∈ m := mapFind?_mem m r.address existing hf
          have hce := hm _ hex
          obtain ⟨oe, hoe⟩ := parseWinrate_ok_of_contains hce
          cases oe with
          | none =>
            have hstep : dedupStep m r = .ok m := by simp [dedupStep, ho, hle, hf, hoe]
            simp only [dedupLoop, hstep]
            exact ih hrest m hm
          | some we =>
            by_cases hgt : w > we
            · have hstep : dedupStep m r = .ok (mapInsert m r.address r) := by
                simp [dedupStep, ho, hle, hf, hoe, hgt]
              simp only [dedupLoop, hstep]
              exact ih hrest _ hins
            · have hstep : dedupStep m r = .ok m := by
                simp [dedupStep, ho, hle, hf, hoe, hgt]
              simp only [dedupLoop, hstep]
              exact ih hrest m hm

/-- C9: `deduplicateAndFilter` splits each label on `winrate:` and
indexes element 1 without a guard — for every input whose records all
contain that substring in their label the loop completes without a
panic, and a record whose label lacks it makes the unguarded index
panic (index out of range). -/
theorem dedup_winrate_split_safety :
    (∀ results : List Result,
      (∀ r ∈ results, containsSub r.label.data winrateKey = true) →
      ∃ out, deduplicateAndFilter results = .ok out)
    ∧ deduplicateAndFilter [{ address := (r"a"), label := (r"no rate here") }]
        = .error .indexOutOfRange := by
  constructor
  · intro results hall
    obtain ⟨m', hm'⟩ := dedupLoop_ok_of_contains results hall [] (by simp)
    exact ⟨m'.map (fun p => p.2), by simp [deduplicateAndFilter, hm']⟩
  · rfl

/-- Witness for C9 on a one-record input whose label contains
`winrate:`. -/
theorem dedup_winrate_split_safety_witness :
    (∀ r ∈ ([{ address := (r"a"), label := (r"x,winrate:0.9") }] : List Result),
      containsSub r.label.data winrateKey = true)
    ∧ ∃ out, deduplicateAndFilter [{ address := (r"a"), label := (r"x,winrate:0.9") }]
        = .ok out :=
  ⟨by decide,
    dedup_winrate_split_safety.1
      [{ address := (r"a"), label := (r"x,winrate:0.9") }] (by decide)⟩

/-! ## C10: replacement only on strictly higher win-rate -/

/-- C10: for two records with the same address whose win-rates parse
and exceed `0.1`, `deduplicateAndFilter` keeps the later one only when
its win-rate is strictly higher; in particular, with equal win-rates
the record encountered first is retained. -/
theorem dedup_ties_keep_first (r1 r2 : Result) (w1 w2 : ℚ)
    (haddr : r2.address = r1.address)
    (h1 : parseWinrate r1.label = .ok (some w1))
    (h2 : parseWinrate r2.label = .ok (some w2))
    (hw1 : mkRat 1 10 < w1) (hw2 : mkRat 1 10 < w2) :
    deduplicateAndFilter [r1, r2] = .ok [if w2 > w1 then r2 else r1] := by
  have hn1 : ¬ (w1 ≤ mkRat 1 10) := not_le.mpr hw1
  have hn2 : ¬ (w2 ≤ mkRat 1 10) := not_le.mpr hw2
  have hstep1 : dedupStep [] r1 = .ok [(r1.address, r1)] := by
    simp [dedupStep, h1, hn1, mapFind?, mapInsert]
  have hfind : mapFind? [(r1.address, r1)] r2.address = some r1 := by
    simp [mapFind?, haddr]
  have hfind2 : mapFind? [(r1.address, r1)] r1.address = some r1 := by
    simp [mapFind?]
  by_cases hgt : w2 > w1
  · have hstep2 : dedupStep [(r1.address, r1)] r2 = .ok [(r1.address, r2)] := by
      simp [dedupStep, h2, hn2, haddr, hfind2, h1, hgt, mapInsert]
    simp [deduplicateAndFilter, dedupLoop, hstep1, hstep2, hgt]
  · have hstep2 : dedupStep [(r1.address, r1)] r2 = .ok [(r1.address, r1)] := by
      simp [dedupStep, h2, hn2, hfind, h1, hgt]
    simp [deduplicateAndFilter, dedupLoop, hstep1, hstep2, hgt]

/-- Witness for C10 on two concrete records for one address with the
same parsed win-rate `0.5`: the first record is retained. -/
theorem dedup_ties_keep_first_witness :
    deduplicateAndFilter
        [{ address := (r"a"), label := (r"winrate:0.5") },
         { address := (r"a"), label := (r"x,winrate:0.5") }]
      = .ok [{ address := (r"a"), label := (r"winrate:0.5") }] := by
  have h := dedup_ties_keep_first
    { address := (r"a"), label := (r"winrate:0.5") }
    { address := (r"a"), label := (r"x,winrate:0.5") }
    (mkRat 1 2) (mkRat 1 2) rfl rfl rfl (by decide) (by decide)
  rw [h]
  simp

/-! ## C2: full characterization of the deduplication -/

lemma mapFind?_of_mem_nodup : ∀ {m : AddrMap}, (m.map Prod.fst).Nodup →
    ∀ {p : String × Result}, p ∈ m → mapFind? m p.1 = some p.2 := by
  intro m
  induction m with
  | nil => intro _ p hp; simp at hp
  | cons q rest ih =>
    intro hnd p hp
    obtain ⟨k', v'⟩ := q
    simp only [List.map_cons, List.nodup_cons] at hnd
    rcases List.mem_cons.mp hp with h1 | h2
    · subst h1
      simp [mapFind?]
    · have hne : k' ≠ p.1 := fun he => hnd.1 (he ▸ List.mem_map_of_mem Prod.fst h2)
      simp only [mapFind?]
      rw [if_neg hne]
      exact ih hnd.2 h2

lemma dedupStep_inv {m : AddrMap} {seen : List Result} {r : Result} {m' : AddrMap}
    (hinv : DedupInv m seen) (hstep : dedupStep m r = .ok m') :
    DedupInv m' (seen ++ [r]) := by
  obtain ⟨hnd, hmem, hcov⟩ := hinv
  cases hp : parseWinrate r.label with
  | error p => simp [dedupStep, hp] at hstep
  | ok o =>
    cases o with
    | none =>
      have hm' : m = m' := by simpa [dedupStep, hp] using hstep
      subst hm'
      refine ⟨hnd, ?_, ?_⟩
      · intro p hpm
        obtain ⟨ha, hseen, w, hw, hwgt, hmax⟩ := hmem p hpm
        refine ⟨ha, List.mem_append_left _ hseen, w, hw, hwgt, ?_⟩
        intro r' hr' haddr w' hw'
        rcases List.mem_append.mp hr' with hr1 | hr2
        · exact hmax r' hr1 haddr w' hw'
        · rcases List.mem_singleton.mp hr2 with rfl
          rw [hp] at hw'
          simp at hw'
      · intro r' hr' w' hw' hwgt'
        rcases List.mem_append.mp hr' with hr1 | hr2
        · exact hcov r' hr1 w' hw' hwgt'
        · rcases List.mem_singleton.mp hr2 with rfl
          rw [hp] at hw'
          simp at hw'
    | some w =>
      by_cases hle : w ≤ mkRat 1 10
      · have hm' : m = m' := by simpa [dedupStep, hp, hle] using hstep
        subst hm'
        refine ⟨hnd, ?_, ?_⟩
        · intro p hpm
          obtain ⟨ha, hseen, wk, hwk, hwkgt, hmax⟩ := hmem p hpm
          refine ⟨ha, List.mem_append_left _ hseen, wk, hwk, hwkgt, ?_⟩
          intro r' hr' haddr w' hw'
          rcases List.mem_append.mp hr' with hr1 | hr2
          · exact hmax r' hr1 haddr w' hw'
          · rcases List.mem_singleton.mp hr2 with rfl
            rw [hp] at hw'
            have heq : w = w' := by simpa using hw'
            subst heq
            exact le_trans hle (le_of_lt hwkgt)
        · intro r' hr' w' hw' hwgt'
          rcases List.mem_append.mp hr' with hr1 | hr2
          · exact hcov r' hr1 w' hw' hwgt'
          · rcases List.mem_singleton.mp hr2 with rfl
            rw [hp] at hw'
            have heq : w = w' := by simpa using hw'
            subst heq
            exact absurd hwgt' (not_lt.mpr hle)
      · have hwgt : mkRat 1 10 < w := not_le.mp hle
        cases hf : mapFind? m r.address with
        | none =>
          have hm' : mapInsert m r.address r = m' := by
            simpa [dedupStep, hp, hle, hf] using hstep
          subst hm'
          have hknotin : r.address ∉ m.map Prod.fst := mapFind?_eq_none m r.address hf
          refine ⟨nodupKeys_mapInsert hnd, ?_, ?_⟩
          · intro p hpm
            rcases mem_mapInsert_strong hnd hpm with rfl | ⟨hpm', hpk⟩
            · refine ⟨rfl, List.mem_append_right _ (List.mem_singleton.mpr rfl),
                w, hp, hwgt, ?_⟩
              intro r' hr' haddr w' hw'
              rcases List.mem_append.mp hr' with hr1 | hr2
              · by_cases hw'le : w' ≤ mkRat 1 10
                · exact le_trans hw'le (le_of_lt hwgt)
                · exfalso
                  obtain ⟨q, hq, hqk⟩ := hcov r' hr1 w' hw' (not_le.mp hw'le)
                  rw [haddr] at hqk
                  have hqk2 : q.1 = r.address := hqk
                  exact hknotin (hqk2 ▸ List.mem_map_of_mem Prod.fst hq)
              · rcases List.mem_singleton.mp hr2 with rfl
                rw [hp] at hw'
                have heq : w = w' := by simpa using hw'
                exact le_of_eq heq.symm
            · obtain ⟨ha, hseen, wk, hwk, hwkgt, hmax⟩ := hmem p hpm'
              refine ⟨ha, List.mem_append_left _ hseen, wk, hwk, hwkgt, ?_⟩
              intro r' hr' haddr w' hw'
              rcases List.mem_append.mp hr' with hr1 | hr2
              · exact hmax r' hr1 haddr w' hw'
              · rcases List.mem_singleton.mp hr2 with rfl
                exact absurd haddr.symm hpk
          · intro r' hr' w' hw' hwgt'
            rcases List.mem_append.mp hr' with hr1 | hr2
            · obtain ⟨q, hq, hqk⟩ := hcov r' hr1 w' hw' hwgt'
              have hkeys : q.1 ∈ (mapInsert m r.address r).map Prod.fst :=
                mem_keys_mapInsert.mpr (Or.inl (List.mem_map_of_mem Prod.fst hq))
              obtain ⟨q', hq'mem, hq'eq⟩ := List.mem_map.mp hkeys
              exact ⟨q', hq'mem, hq'eq.trans hqk⟩
            · rcases List.mem_singleton.mp hr2 with rfl
              exact ⟨(r'.address, r'), mem_mapInsert_self m r'.address r', rfl⟩
        | some existing =>
          have hexm : (r.address, existing) ∈ m := mapFind?_mem m r.address existing hf
          obtain ⟨haE, hseenE, wE, hwE, hwEgt, hmaxE⟩ := hmem _ hexm
          by_cases hgt2 : w > wE
          · have hm' : mapInsert m r.address r = m' := by
              simpa [dedupStep, hp, hle, hf, hwE, hgt2] using hstep
            subst hm'
            refine ⟨nodupKeys_mapInsert hnd, ?_, ?_⟩
            · intro p hpm
              rcases mem_mapInsert_strong hnd hpm with rfl | ⟨hpm', hpk⟩
              · refine ⟨rfl, List.mem_append_right _ (List.mem_singleton.mpr rfl),
                  w, hp, hwgt, ?_⟩
                intro r' hr' haddr w' hw'
                rcases List.mem_append.mp hr' with hr1 | hr2
                · exact le_trans (hmaxE r' hr1 haddr w' hw') (le_of_lt hgt2)
                · rcases List.mem_singleton.mp hr2 with rfl
                  rw [hp] at hw'
                  have heq : w = w' := by simpa using hw'
                  exact le_of_eq heq.symm
              · obtain ⟨ha, hseen, wk, hwk, hwkgt, hmax⟩ := hmem p hpm'
                refine ⟨ha, List.mem_append_left _ hseen, wk, hwk, hwkgt, ?_⟩
                intro r' hr' haddr w' hw'
                rcases List.mem_append.mp hr' with hr1 | hr2
                · exact hmax r' hr1 haddr w' hw'
                · rcases List.mem_singleton.mp hr2 with rfl
                  exact absurd haddr.symm hpk
            · intro r' hr' w' hw' hwgt'
              rcases List.mem_append.mp hr' with hr1 | hr2
              · obtain ⟨q, hq, hqk⟩ := hcov r' hr1 w' hw' hwgt'
                have hkeys : q.1 ∈ (mapInsert m r.address r).map Prod.fst :=
                  mem_keys_mapInsert.mpr (Or.inl (List.mem_map_of_mem Prod.fst hq))
                obtain ⟨q', hq'mem, hq'eq⟩ := List.mem_map.mp hkeys
                exact ⟨q', hq'mem, hq'eq.trans hqk⟩
              · rcases List.mem_singleton.mp hr2 with rfl
                exact ⟨(r'.address, r'), mem_mapInsert_self m r'.address r', rfl⟩
          · have hm' : m = m' := by
              simpa [dedupStep, hp, hle, hf, hwE, hgt2] using hstep
            subst hm'
            refine ⟨hnd, ?_, ?_⟩
            · intro p hpm
              obtain ⟨ha, hseen, wk, hwk, hwkgt, hmax⟩ := hmem p hpm
              refine ⟨ha, List.mem_append_left _ hseen, wk, hwk, hwkgt, ?_⟩
              intro r' hr' haddr w' hw'
              rcases List.mem_append.mp hr' with hr1 | hr2
              · exact hmax r' hr1 haddr w' hw'
              · rcases List.mem_singleton.mp hr2 with rfl
                rw [hp] at hw'
                have heq : w = w' := by simpa using hw'
                subst heq
                -- the address of the new record is the key of `p`, so `p`
                -- is the binding of `existing` and its win-rate is `wE`
                have hpfind : mapFind? m p.1 = some p.2 := mapFind?_of_mem_nodup hnd hpm
                rw [← haddr] at hpfind
                rw [hf] at hpfind
                have hpe : existing = p.2 := by simpa using hpfind
                have hwkE : wk = wE := by
                  rw [← hpe] at hwk
                  rw [hwE] at hwk
                  simpa using hwk.symm
                rw [hwkE]
                exact not_lt.mp hgt2
            · intro r' hr' w' hw' hwgt'
              rcases List.mem_append.mp hr' with hr1 | hr2
              · exact hcov r' hr1 w' hw' hwgt'
              · rcases List.mem_singleton.mp hr2 with rfl
                exact ⟨(r'.address, existing), hexm, rfl⟩

lemma dedupLoop_inv : ∀ (results : List Result) (m : AddrMap) (seen : List Result)
    (m' : AddrMap), DedupInv m seen → dedupLoop m results = .ok m' →
    DedupInv m' (seen ++ results) := by
  intro results
  induction results with
  | nil =>
    intro m seen m' hinv h
    simp only [dedupLoop] at h
    cases h
    simpa using hinv
  | cons r rest ih =>
    intro m seen m' hinv h
    simp only [dedupLoop] at h
    cases hstep : dedupStep m r with
    | error p => rw [hstep] at h; cases h
    | ok m1 =>
      rw [hstep] at h
      have hinv1 := dedupStep_inv hinv hstep
      have hres := ih m1 (seen ++ [r]) m' hinv1 h
      simpa [List.append_assoc] using hres

/-- C2: when `deduplicateAndFilter` completes without a panic, its
output has pairwise distinct addresses; every output record is an
input record whose win-rate parses and exceeds `0.1` and is maximal
among the parseable win-rates of the input records with its address;
and every input record whose win-rate parses and exceeds `0.1` is
represented in the output by a record with its address. -/
theorem deduplicateAndFilter_characterization (results out : List Result)
    (h : deduplicateAndFilter results = .ok out) :
    (out.map Result.address).Nodup
    ∧ (∀ r ∈ out, r ∈ results
        ∧ ∃ w, parseWinrate r.label = .ok (some w) ∧ mkRat 1 10 < w
        ∧ ∀ r' ∈ results, r'.address = r.address →
            ∀ w', parseWinrate r'.label = .ok (some w') → w' ≤ w)
    ∧ (∀ r' ∈ results, ∀ w', parseWinrate r'.label = .ok (some w') → mkRat 1 10 < w' →
        ∃ r ∈ out, r.address = r'.address) := by
  cases hloop : dedupLoop [] results with
  | error p => simp [deduplicateAndFilter, hloop] at h
  | ok m =>
    have hout : out = m.map (fun p => p.2) := by
      simp [deduplicateAndFilter, hloop] at h
      exact h.symm
    have hinv0 : DedupInv [] [] := ⟨List.nodup_nil, by simp, by simp⟩
    have hinv := dedupLoop_inv results [] [] m hinv0 hloop
    rw [List.nil_append] at hinv
    obtain ⟨hnd, hmem, hcov⟩ := hinv
    subst hout
    refine ⟨?_, ?_, ?_⟩
    · have hmaps : (m.map (fun p => p.2)).map Result.address = m.map Prod.fst := by
        rw [List.map_map]
        apply List.map_congr_left
        intro p hp
        exact (hmem p hp).1
      rw [hmaps]
      exact hnd
    · intro r hr
      obtain ⟨p, hp, hpr⟩ := List.mem_map.mp hr
      obtain ⟨ha, hseen, w, hw, hwgt, hmax⟩ := hmem p hp
      subst hpr
      exact ⟨hseen, w, hw, hwgt,
        fun r' hr' haddr w' hw' => hmax r' hr' (by rw [haddr, ha]) w' hw'⟩
    · intro r' hr' w' hw' hwgt'
      obtain ⟨q, hq, hqk⟩ := hcov r' hr' w' hw' hwgt'
      refine ⟨q.2, List.mem_map.mpr ⟨q, hq, rfl⟩, ?_⟩
      rw [(hmem q hq).1, hqk]

/-- Witness for C2 on a concrete input with a duplicate address and a
low-win-rate record: the higher `0.5` record of address `a` is kept,
the `0.3` duplicate and the `0.05` record of `b` are dropped. -/
theorem deduplicateAndFilter_characterization_witness :
    deduplicateAndFilter
        [{ address := (r"a"), label := (r"winrate:0.3") },
         { address := (r"a"), label := (r"winrate:0.5") },
         { address := (r"b"), label := (r"winrate:0.05") }]
      = .ok [{ address := (r"a"), label := (r"winrate:0.5") }]
    ∧ (([{ address := (r"a"), label := (r"winrate:0.5") }] : List Result).map
        Result.address).Nodup :=
  ⟨by rfl,
    (deduplicateAndFilter_characterization
      [{ address := (r"a"), label := (r"winrate:0.3") },
       { address := (r"a"), label := (r"winrate:0.5") },
       { address := (r"b"), label := (r"winrate:0.05") }]
      [{ address := (r"a"), label := (r"winrate:0.5") }] (by rfl)).1⟩
